import Mathlib

/-
Verification development for `tensorstore_trackarr` (file
`src/tensorstore_trackarr/trackarr.py`).

The Python class `TrackArr` keeps, next to a 3-D labeled pixel volume
(frame, y, x), three bookkeeping structures:
  * `bboxes_df`  : a pandas DataFrame indexed by (frame, label), holding one
    bounding box (min_y, min_x, max_y, max_x; half-open) per row,
  * `_track_df`  : a derived table label -> (min frame, max frame),
    recomputed by `update_track_df`,
  * `splits` / `termnation_annotations` : plain Python dicts
    parent -> list of daughters, and label -> free-text reason.

Shallow embedding choices:
  * pixels are a total function `Nat -> Nat -> Nat -> Nat` (frame, y, x to
    label); windowed writes become pointwise updates guarded by the window,
  * the DataFrame becomes a `List ((Nat × Nat) × BBox)` in index order;
    `.loc` is `find?` on the key (the claims never exercise duplicate-key
    lookups), `.drop` removes every row with the key, `.index.map` renames
    keys in place,
  * Python dicts become insertion-ordered association lists
    `List (Nat × α)`; assignment updates an existing key in place or
    appends a fresh one, `pop` removes the key,
  * every mutating operation returns `Except (PyErr × TrackState) ...`:
    a raised Python exception carries the (possibly partially mutated)
    state at the raise point, exactly as an exception leaves `self`,
  * pixel reads/writes against the tensorstore volume are also logged as
    events carrying the transaction handle they were issued under
    (`none` models Python `None`).
-/

/-- Bounding box (min_row, min_col, max_row, max_col), half-open, as stored
in one row of `bboxes_df`. -/
structure BBox where
  min_y : Nat
  min_x : Nat
  max_y : Nat
  max_x : Nat
deriving DecidableEq

/-- The labeled volume: frame, y, x to label (0 = background). -/
abbrev Pixels : Type := Nat → Nat → Nat → Nat

/-- A pixel read or write issued against the tensorstore array, tagged with
the transaction handle it was issued under (`none` models Python `None`). -/
inductive Ev where
  | read (txn : Option Nat) (frame : Nat) (bb : BBox)
  | write (txn : Option Nat) (frame : Nat) (bb : BBox) (val : Nat)
deriving DecidableEq

/-- The transaction handle an event was issued under. -/
def Ev.txnOf : Ev → Option Nat
  | .read t _ _ => t
  | .write t _ _ _ => t

/-- Whether the event is a read. -/
def Ev.isRead : Ev → Bool
  | .read _ _ _ => true
  | .write _ _ _ _ => false

/-- Python exceptions that the modeled code can raise.  `fuelExhausted` is
not a Python exception: it signals that the model of CPython's
iterate-while-mutating dict loop ran out of fuel (see `swapSplitsLoop`). -/
inductive PyErr where
  | keyError
  | assertionError
  | valueError
  | runtimeError
  | fuelExhausted
deriving DecidableEq

/-- The in-memory state of one `TrackArr` instance.  `H`/`W` are
`array.shape[1]` and `array.shape[2]`; `termAnns` models the
`termnation_annotations` dict of the source. -/
structure TrackState where
  H : Nat
  W : Nat
  pixels : Pixels
  bboxes : List ((Nat × Nat) × BBox)
  trackD : List (Nat × Nat × Nat)
  splits : List (Nat × List Nat)
  termAnns : List (Nat × String)

/-- Result of a mutating operation: either a raised exception together with
the state at the raise point, or the new state plus the pixel IO log. -/
abbrev Res : Type := Except (PyErr × TrackState) (TrackState × List Ev)

/-- Result of `break_track`, which additionally returns the minted label. -/
abbrev BRes : Type := Except (PyErr × TrackState) (Nat × TrackState × List Ev)

/-- Dict lookup (`d.get(k)` / `k in d` combined). -/
def lookupD {α : Type} (d : List (Nat × α)) (k : Nat) : Option α :=
  (d.find? (fun e => e.1 == k)).map (·.2)

/-- Dict assignment `d[k] = v`: replaces the value at an existing key in
place (every entry carrying `k`, so duplicate-key garbage is also
overwritten), or appends a fresh entry. -/
def dictAssign {α : Type} (d : List (Nat × α)) (k : Nat) (v : α) : List (Nat × α) :=
  if d.any (fun e => e.1 == k) then
    d.map (fun e => if e.1 = k then (k, v) else e)
  else
    d ++ [(k, v)]

/-- Dict `d.pop(k, None)`: drops the key, keeps the rest in order. -/
def dictPop {α : Type} (d : List (Nat × α)) (k : Nat) : List (Nat × α) :=
  d.filter (fun e => e.1 != k)

/-- `list.remove(x)`: removes the first occurrence of `x`. -/
def removeFirst : List Nat → Nat → List Nat
  | [], _ => []
  | a :: r, x => if a = x then r else a :: removeFirst r x

/-- `.loc[(frame, label)]` on `bboxes_df`; first row with the key. -/
def lookupBB (bb : List ((Nat × Nat) × BBox)) (k : Nat × Nat) : Option BBox :=
  (bb.find? (fun e => e.1 == k)).map (·.2)

/-- `TrackArr._get_track_bboxes`: the rows of `bboxes_df` whose label level
equals `trackid`, in index order. -/
def trackEntries (bb : List ((Nat × Nat) × BBox)) (t : Nat) : List ((Nat × Nat) × BBox) :=
  bb.filter (fun e => e.1.2 == t)

/-- `TrackArr._get_safe_track_id`: max of the label level of the current
index, plus one.  (pandas returns NaN on an empty index; the model is only
used with a nonempty one, where it agrees.) -/
def getSafeTrackId (bb : List ((Nat × Nat) × BBox)) : Nat :=
  (bb.map (fun e => e.1.2)).foldl Nat.max 0 + 1

/-- Minimum of a list of naturals (first element seeds the fold; junk 0 on
the empty list, which the callers never hit). -/
def natMinList : List Nat → Nat
  | [] => 0
  | a :: r => r.foldl Nat.min a

/-- Maximum of a list of naturals (first element seeds the fold; junk 0 on
the empty list, which the callers never hit). -/
def natMaxList : List Nat → Nat
  | [] => 0
  | a :: r => r.foldl Nat.max a

/-- Sorted insertion without duplicates, used to model the (sorted) group
keys of `groupby("label")`. -/
def insSorted (x : Nat) : List Nat → List Nat
  | [] => [x]
  | a :: r => if x < a then x :: a :: r else if x = a then a :: r else a :: insSorted x r

/-- The sorted, duplicate-free labels of the index (the `groupby` keys). -/
def sortedLabels (bb : List ((Nat × Nat) × BBox)) : List Nat :=
  bb.foldl (fun acc e => insSorted e.1.2 acc) []

/-- `bboxes_df.reset_index().groupby("label")["frame"].agg(["min","max"])`:
for each label of the index, the min and max frame holding an entry. -/
def computeTrackD (bb : List ((Nat × Nat) × BBox)) : List (Nat × Nat × Nat) :=
  (sortedLabels bb).map (fun L =>
    (L, natMinList ((trackEntries bb L).map (fun e => e.1.1)),
        natMaxList ((trackEntries bb L).map (fun e => e.1.1))))

/-- `TrackArr.update_track_df`: refresh the stored extent table from the
current index. -/
def updateTrackDf (st : TrackState) : TrackState :=
  { st with trackD := computeTrackD st.bboxes }

/-- Membership of a pixel in the half-open window of a bounding box. -/
def inWin (b : BBox) (y x : Nat) : Bool :=
  decide (b.min_y ≤ y) && decide (y < b.max_y) && decide (b.min_x ≤ x) && decide (x < b.max_x)

/-- Windowed masked write `subarr[...][ind] = new` where
`ind = (np.array(subarr) == old)`: inside the box of frame `f`, pixels
currently equal to `old` become `new`. -/
def writeWhereEq (px : Pixels) (f : Nat) (b : BBox) (old new : Nat) : Pixels :=
  fun f2 y x =>
    if f2 = f ∧ inWin b y x = true ∧ px f2 y x = old then new else px f2 y x

/-- Windowed masked write whose mask was recorded earlier against the
snapshot `src` (used by `swap_tracks`, which reads all masks first). -/
def writeMaskEq (px : Pixels) (f : Nat) (b : BBox) (src : Pixels) (old new : Nat) : Pixels :=
  fun f2 y x =>
    if f2 = f ∧ inWin b y x = true ∧ src f2 y x = old then new else px f2 y x

/-- `TrackArr._update_trackid(frame, trackid, new_trackid, txn, skip_update)`:
read the pixels of `trackid` inside its bbox at `frame`, rewrite them to
`new_trackid`, rename the index key in place, optionally refresh the extent
table.  `.loc` raises `KeyError` when the row is missing. -/
def updateTrackid (f t new : Nat) (txn : Option Nat) (skip : Bool) (st : TrackState) : Res :=
  match lookupBB st.bboxes (f, t) with
  | none => .error (.keyError, st)
  | some row =>
    let px := writeWhereEq st.pixels f row t new
    let bb := st.bboxes.map (fun e => if e.1 = (f, t) then ((f, new), e.2) else e)
    let st1 := { st with pixels := px, bboxes := bb }
    let st2 := if skip then st1 else updateTrackDf st1
    .ok (st2, [.read txn f row, .write txn f row new])

/-- The relabel loop `for frame in bboxes_df.frame: self._update_trackid(...,
skip_update=True)` shared by `break_track` and
`cleanup_single_daughter_splits`. -/
def foldUpdate : List Nat → Nat → Nat → Option Nat → TrackState → Res
  | [], _, _, _, st => .ok (st, [])
  | f :: fs, t, new, txn, st =>
    match updateTrackid f t new txn true st with
    | .error e => .error e
    | .ok (st1, e1) =>
      match foldUpdate fs t new txn st1 with
      | .error e => .error e
      | .ok (st2, e2) => .ok (st2, e1 ++ e2)

/-- The body of `TrackArr.cleanup_single_daughter_splits`: iterate over a
snapshot of `splits`; every split holding exactly one daughter is folded
back into the parent (all of the daughter's entries relabeled to the
parent, with `txn=None` and `skip_update=True`) and its record popped. -/
def cleanupGo : List (Nat × List Nat) → TrackState → Res
  | [], st => .ok (st, [])
  | (p, ds) :: rest, st =>
    if ds.length = 1 then
      let d := ds.headD 0
      let frames := (trackEntries st.bboxes d).map (fun e => e.1.1)
      match foldUpdate frames d p none st with
      | .error e => .error e
      | .ok (st1, e1) =>
        match cleanupGo rest { st1 with splits := dictPop st1.splits p } with
        | .error e => .error e
        | .ok (st2, e2) => .ok (st2, e1 ++ e2)
    else
      cleanupGo rest st

/-- `TrackArr.cleanup_single_daughter_splits`. -/
def cleanupSDS (st : TrackState) : Res :=
  cleanupGo st.splits st

/-- `TrackArr.delete_mask(frame, trackid, txn, skip_update, cleanup)`:
zero the bbox-bounded pixels equal to `trackid`, drop the index row(s),
optionally refresh the extent table; if the track became empty (and
`cleanup`), drop its termination entry, drop the split it owns, remove it
from every daughters list, then collapse single-daughter splits. -/
def deleteMask (f t τ : Nat) (skip cleanup : Bool) (st : TrackState) : Res :=
  match lookupBB st.bboxes (f, t) with
  | none => .error (.keyError, st)
  | some row =>
    let px := writeWhereEq st.pixels f row t 0
    let bb := st.bboxes.filter (fun e => e.1 != (f, t))
    let st1 := { st with pixels := px, bboxes := bb }
    let st2 := if skip then st1 else updateTrackDf st1
    let evs : List Ev := [.read (some τ) f row, .write (some τ) f row 0]
    if cleanup ∧ (trackEntries st2.bboxes t).isEmpty = true then
      let st3 := { st2 with
        termAnns := dictPop st2.termAnns t,
        splits := (dictPop st2.splits t).map (fun pd => (pd.1, pd.2.filter (fun d => d != t))) }
      match cleanupSDS st3 with
      | .error e => .error e
      | .ok (st4, e2) => .ok (st4, evs ++ e2)
    else
      .ok (st2, evs)

/-- A numpy 2-D mask argument: its dtype (the source asserts
`mask.dtype == bool`) and its truth-valued entries.  numpy arrays are
rectangular; theorems state that where needed. -/
structure NpMask where
  dtypeBool : Bool
  data : List (List Bool)

/-- `mask.shape[0]`. -/
def shape0 (m : List (List Bool)) : Nat := m.length

/-- `mask.shape[1]` (rows of a numpy array all share this length). -/
def shape1 (m : List (List Bool)) : Nat := (m.headD []).length

/-- Entry `row[j]` of one mask row, `false` out of range. -/
def rowAt : List Bool → Nat → Bool
  | [], _ => false
  | b :: _, 0 => b
  | _ :: r, j + 1 => rowAt r j

/-- Entry `mask[i][j]`, `false` out of range. -/
def maskAt : List (List Bool) → Nat → Nat → Bool
  | [], _, _ => false
  | row :: _, 0, j => rowAt row j
  | _ :: rest, i + 1, j => maskAt rest i j

/-- Column indices of the set bits of one row (`np.where` within a row). -/
def truesIn : List Bool → List Nat
  | [] => []
  | b :: r => (if b then [0] else []) ++ (truesIn r).map (· + 1)

/-- `np.where(mask)` as a list of (row, column) positions, row-major. -/
def setPositions : List (List Bool) → List (Nat × Nat)
  | [] => []
  | row :: rest =>
    (truesIn row).map (fun j => (0, j)) ++ (setPositions rest).map (fun p => (p.1 + 1, p.2))

/-- The tight window of a nonempty list of set-bit positions, shifted by
the mask origin: `np.min`/`np.max` over each axis of `np.where(mask)`,
half-open on the max side (`... + 1`). -/
def tightBox (oy ox : Nat) (ps : List (Nat × Nat)) : BBox :=
  ⟨oy + natMinList (ps.map (fun q => q.1)),
   ox + natMinList (ps.map (fun q => q.2)),
   oy + natMaxList (ps.map (fun q => q.1)) + 1,
   ox + natMaxList (ps.map (fun q => q.2)) + 1⟩

/-- The pixel write of `add_mask`: inside the tight window, pixels covered
by a set mask bit become `t`.  The cropped `mask2` indexed relative to the
window equals the original mask indexed at `(y - oy, x - ox)`. -/
def addPixels (px : Pixels) (f t oy ox : Nat) (m : List (List Bool)) (bbW : BBox) : Pixels :=
  fun f2 y x =>
    if f2 = f ∧ inWin bbW y x = true ∧ maskAt m (y - oy) (x - ox) = true
    then t else px f2 y x

/-- `TrackArr.add_mask(frame, trackid, mask_origin, mask, txn)`: after the
two spatial-extent asserts and the dtype assert, compute the tight window
of set bits (`np.min`/`np.max` raise `ValueError` on an all-false mask),
write `trackid` into the masked pixels of that window, append the new index
row, refresh the extent table. -/
def addMask (f t : Nat) (oy ox : Nat) (m : NpMask) (τ : Nat) (st : TrackState) : Res :=
  if shape0 m.data + oy ≤ st.H then
    if shape1 m.data + ox ≤ st.W then
      if m.dtypeBool = true then
        match setPositions m.data with
        | [] => .error (.valueError, st)
        | p :: ps =>
          let bbW := tightBox oy ox (p :: ps)
          let st1 := updateTrackDf
            { st with pixels := addPixels st.pixels f t oy ox m.data bbW,
                      bboxes := st.bboxes ++ [((f, t), bbW)] }
          .ok (st1, [.write (some τ) f bbW t])
      else .error (.assertionError, st)
    else .error (.assertionError, st)
  else .error (.assertionError, st)

/-- `TrackArr.update_mask`: delete (skipping extent refresh and cascade)
then add for the same key. -/
def updateMask (f t : Nat) (oy ox : Nat) (m : NpMask) (τ : Nat) (st : TrackState) : Res :=
  match deleteMask f t τ true false st with
  | .error e => .error e
  | .ok (st1, e1) =>
    match addMask f t oy ox m τ st1 with
    | .error e => .error e
    | .ok (st2, e2) => .ok (st2, e1 ++ e2)

/-- The delete loop of `terminate_track` (each call with
`skip_update=True` and the default `cleanup=True`). -/
def foldDelete : List Nat → Nat → Nat → TrackState → Res
  | [], _, _, st => .ok (st, [])
  | f :: fs, t, τ, st =>
    match deleteMask f t τ true true st with
    | .error e => .error e
    | .ok (st1, e1) =>
      match foldDelete fs t τ st1 with
      | .error e => .error e
      | .ok (st2, e2) => .ok (st2, e1 ++ e2)

/-- `TrackArr.terminate_track(frame, trackid, annotation, txn)`: delete
every entry of the track at frames strictly greater than `frame`, refresh
the extent table, set the termination entry, drop the split owned by the
track. -/
def terminateTrack (f t : Nat) (a : String) (τ : Nat) (st : TrackState) : Res :=
  let frames := ((trackEntries st.bboxes t).filter (fun e => f < e.1.1)).map (fun e => e.1.1)
  match foldDelete frames t τ st with
  | .error e => .error e
  | .ok (st1, evs) =>
    let st2 := updateTrackDf st1
    .ok ({ st2 with termAnns := dictAssign st2.termAnns t a,
                    splits := dictPop st2.splits t }, evs)

/-- `TrackArr.break_track(new_start_frame, trackid, change_after, txn)`:
mint `_get_safe_track_id()` (current max label + 1), relabel the suffix
(`frame >= new_start_frame`, if `change_after`) or prefix (otherwise) of
the track to it, refresh the extent table, then move the lineage data:
if `change_after`, the split owned by the track and its termination entry
are re-keyed to the minted label (appended as fresh dict keys); otherwise
the minted label replaces the track in every daughters list it occurs in
(first occurrence removed, minted label appended to that list). -/
def breakTrack (newStart t : Nat) (changeAfter : Bool) (τ : Nat) (st : TrackState) : BRes :=
  let safe := getSafeTrackId st.bboxes
  let sel := if changeAfter
    then (trackEntries st.bboxes t).filter (fun e => newStart ≤ e.1.1)
    else (trackEntries st.bboxes t).filter (fun e => e.1.1 < newStart)
  match foldUpdate (sel.map (fun e => e.1.1)) t safe (some τ) st with
  | .error e => .error e
  | .ok (st1, evs) =>
    let st2 := updateTrackDf st1
    let st3 :=
      if changeAfter then
        let sp := match lookupD st2.splits t with
          | some ds => dictAssign (dictPop st2.splits t) safe ds
          | none => st2.splits
        let an := match lookupD st2.termAnns t with
          | some v => dictAssign (dictPop st2.termAnns t) safe v
          | none => st2.termAnns
        { st2 with splits := sp, termAnns := an }
      else
        { st2 with splits := st2.splits.map (fun pd =>
            if t ∈ pd.2 then (pd.1, removeFirst pd.2 t ++ [safe]) else pd) }
    .ok (safe, st3, evs)

/-- The per-daughter body of `add_split`: `break_track(daughter_start_frame,
daughter, change_after=False, txn)` followed by detaching the daughter from
every daughters list of a snapshot of `splits`. -/
def goDaughters : List Nat → Nat → Nat → TrackState → Res
  | [], _, _, st => .ok (st, [])
  | d :: ds, dsf, τ, st =>
    match breakTrack dsf d false τ st with
    | .error e => .error e
    | .ok (_, st1, e1) =>
      let st2 := { st1 with splits := st1.splits.map (fun pd =>
        if d ∈ pd.2 then (pd.1, removeFirst pd.2 d) else pd) }
      match goDaughters ds dsf τ st2 with
      | .error e => .error e
      | .ok (st3, e2) => .ok (st3, e1 ++ e2)

/-- `TrackArr.add_split(daughter_start_frame, parent_trackid,
daughter_trackids, txn)`: truncate the parent with
`break_track(..., change_after=True)`; if the parent was listed among the
daughters, remove that occurrence and append the minted continuation at
the end of the list; sever each listed daughter with
`break_track(..., change_after=False)` and detach it from prior splits;
register the list under the parent; collapse single-daughter splits.
No validation of any kind is performed on the daughters list. -/
def addSplit (dsf parent : Nat) (daughters : List Nat) (τ : Nat) (st : TrackState) : Res :=
  match breakTrack dsf parent true τ st with
  | .error e => .error e
  | .ok (newId, st1, e1) =>
    let ds1 := if parent ∈ daughters
      then removeFirst daughters parent ++ [newId]
      else daughters
    match goDaughters ds1 dsf τ st1 with
    | .error e => .error e
    | .ok (st2, e2) =>
      let st3 := { st2 with splits := dictAssign st2.splits parent ds1 }
      match cleanupSDS st3 with
      | .error e => .error e
      | .ok (st4, e3) => .ok (st4, e1 ++ e2 ++ e3)

/-
`swap_tracks` updates `splits` by iterating `self.splits.items()` on the
LIVE dict while deleting and inserting keys in the loop body (every other
loop of the source iterates a `.copy()`).  We model the CPython compact
dict: the entries array keeps a hole (`none`) where a key was deleted, a
fresh key is appended at the end, assignment to an existing key replaces
its value in place, and the item iterator (a) raises
`RuntimeError("dictionary changed size during iteration")` whenever the
live count differs from the count recorded at iterator creation, and (b)
otherwise scans forward to the next occupied slot.  The fuel argument
stands in for the eventual internal dict resize (not modeled; no claim
depends on an execution that reaches it). -/

/-- First occupied slot of the entries array, with its offset. -/
def firstSome {α : Type} : List (Option α) → Option (Nat × α)
  | [] => none
  | some a :: _ => some (0, a)
  | none :: rest => (firstSome rest).map (fun p => (p.1 + 1, p.2))

/-- Number of live entries (`ma_used`). -/
def usedO {α : Type} (d : List (Option α)) : Nat := (d.filterMap id).length

/-- `del d[k]` on the entries array: the slot becomes a hole. -/
def delO (d : List (Option (Nat × List Nat))) (k : Nat) : List (Option (Nat × List Nat)) :=
  d.map (fun o => match o with
    | some e => if e.1 = k then none else some e
    | none => none)

/-- `d[k] = v` on the entries array: replace in place if the key is live,
else append at the end. -/
def assignO (d : List (Option (Nat × List Nat))) (k : Nat) (v : List Nat) :
    List (Option (Nat × List Nat)) :=
  if d.any (fun o => o.elim false (fun e => e.1 == k)) then
    d.map (fun o => match o with
      | some e => if e.1 = k then some (k, v) else some e
      | none => none)
  else
    d ++ [some (k, v)]

/-- Exchange the two track ids in a single label value. -/
def swapLab (t1 t2 x : Nat) : Nat :=
  if x = t1 then t2 else if x = t2 then t1 else x

/-- The `for parent, daughters in self.splits.items(): ...` loop of
`swap_tracks`, iterating the live dict (see the block comment above). -/
def swapSplitsLoop (t1 t2 diUsed : Nat) :
    Nat → Nat → List (Option (Nat × List Nat)) →
    Except (PyErr × List (Option (Nat × List Nat))) (List (Option (Nat × List Nat)))
  | 0, _, d => .error (.fuelExhausted, d)
  | fuel + 1, i, d =>
    if usedO d ≠ diUsed then .error (.runtimeError, d)
    else
      match (firstSome (d.drop i)).map (fun p => (i + p.1, p.2)) with
      | none => .ok d
      | some (j, (p, ds)) =>
        let pd := if p = t1 then (t2, delO d p)
          else if p = t2 then (t1, delO d p)
          else (p, d)
        let d2 := assignO pd.2 pd.1 (ds.map (swapLab t1 t2))
        swapSplitsLoop t1 t2 diUsed fuel (j + 1) d2

/-- Entry point of the splits loop: iterator created on the current dict. -/
def swapSplits (t1 t2 : Nat) (sp : List (Nat × List Nat)) :
    Except (PyErr × List (Nat × List Nat)) (List (Nat × List Nat)) :=
  match swapSplitsLoop t1 t2 sp.length (sp.length * 4 + 8) 0 (sp.map some) with
  | .error (e, d) => .error (e, d.filterMap id)
  | .ok d => .ok (d.filterMap id)

/-- `TrackArr.swap_tracks(trackid1, trackid2, txn)`: record the pixel masks
of both identities over all their bboxes (all reads first), then write both
mask sets with the ids exchanged; swap the index keys on the label level;
refresh the extent table; rewrite `splits` with the live-iteration loop;
finally exchange the two termination entries via pop/reassign. -/
def swapTracks (t1 t2 τ : Nat) (st : TrackState) : Res :=
  let rows1 := trackEntries st.bboxes t1
  let rows2 := trackEntries st.bboxes t2
  let evR := rows1.map (fun e => Ev.read (some τ) e.1.1 e.2)
          ++ rows2.map (fun e => Ev.read (some τ) e.1.1 e.2)
  let px1 := rows1.foldl (fun px e => writeMaskEq px e.1.1 e.2 st.pixels t1 t2) st.pixels
  let px2 := rows2.foldl (fun px e => writeMaskEq px e.1.1 e.2 st.pixels t2 t1) px1
  let evW := rows1.map (fun e => Ev.write (some τ) e.1.1 e.2 t2)
          ++ rows2.map (fun e => Ev.write (some τ) e.1.1 e.2 t1)
  let bb := st.bboxes.map (fun e =>
    if e.1.2 = t1 then ((e.1.1, t2), e.2)
    else if e.1.2 = t2 then ((e.1.1, t1), e.2) else e)
  let st1 := updateTrackDf { st with pixels := px2, bboxes := bb }
  match swapSplits t1 t2 st1.splits with
  | .error (err, sp) => .error (err, { st1 with splits := sp })
  | .ok sp =>
    let ta0 := lookupD st1.termAnns t2
    let ta1 := lookupD st1.termAnns t1
    let an0 := dictPop (dictPop st1.termAnns t2) t1
    let an1 := match ta0 with | some v => dictAssign an0 t1 v | none => an0
    let an2 := match ta1 with | some v => dictAssign an1 t2 v | none => an1
    .ok ({ st1 with splits := sp, termAnns := an2 }, evR ++ evW)

/-- The state delivered by an operation: on success the new state, on a
raised exception the state at the raise point. -/
def resState (r : Res) : TrackState :=
  match r with
  | .ok (s, _) => s
  | .error (_, s) => s

/-- The pixel IO log of a successful operation (empty on an exception). -/
def resEvs (r : Res) : List Ev :=
  match r with
  | .ok (_, evs) => evs
  | .error _ => []

/-- Whether the operation completed without raising. -/
def resIsOk (r : Res) : Bool :=
  match r with
  | .ok _ => true
  | .error _ => false

/-- The exception raised, if any. -/
def errKind (r : Res) : Option PyErr :=
  match r with
  | .ok _ => none
  | .error (e, _) => some e

/-- The label returned by `break_track` (junk 0 on an exception). -/
def brVal (r : BRes) : Nat :=
  match r with
  | .ok (n, _, _) => n
  | .error _ => 0

/-- The state delivered by `break_track`. -/
def brState (r : BRes) : TrackState :=
  match r with
  | .ok (_, s, _) => s
  | .error (_, s) => s

/-- The pixel IO log of a successful `break_track`. -/
def brEvs (r : BRes) : List Ev :=
  match r with
  | .ok (_, _, evs) => evs
  | .error _ => []

/-
Concrete states used by the concrete theorems below.  Pixels are always
consistent with the index (each label's pixels sit inside its bbox).
-/

/-- The 1x1 box at the origin of a 2x2 frame. -/
def boxA : BBox := ⟨0, 0, 1, 1⟩

/-- The 1x1 box at the opposite corner of a 2x2 frame. -/
def boxB : BBox := ⟨1, 1, 2, 2⟩

/-- Label 1 at frame 0, labels 2 and 3 at frame 1, split 1 -> [2, 3]. -/
def stCascade : TrackState :=
  { H := 2, W := 2,
    pixels := fun f y x =>
      if f = 0 ∧ y = 0 ∧ x = 0 then 1
      else if f = 1 ∧ y = 0 ∧ x = 0 then 2
      else if f = 1 ∧ y = 1 ∧ x = 1 then 3 else 0,
    bboxes := [((0, 1), boxA), ((1, 2), boxA), ((1, 3), boxB)],
    trackD := computeTrackD [((0, 1), boxA), ((1, 2), boxA), ((1, 3), boxB)],
    splits := [(1, [2, 3])],
    termAnns := [] }

/-- `delete_mask(1, 3, txn=7)` on `stCascade`: removes label 3's only entry,
which detaches it from the split and collapses the now single-daughter
split 1 -> [2]. -/
def cascadeRun : Res := deleteMask 1 3 7 false true stCascade

/-- Labels 1 and 2 at frame 0, both of them split parents. -/
def stBothParents : TrackState :=
  { H := 2, W := 2,
    pixels := fun f y x =>
      if f = 0 ∧ y = 0 ∧ x = 0 then 1 else if f = 0 ∧ y = 1 ∧ x = 1 then 2 else 0,
    bboxes := [((0, 1), boxA), ((0, 2), boxB)],
    trackD := computeTrackD [((0, 1), boxA), ((0, 2), boxB)],
    splits := [(1, [3, 4]), (2, [5, 6])],
    termAnns := [] }

/-- Labels 1, 2, 3 at frame 0 (3 holds the maximum label). -/
def stMaxThree : TrackState :=
  { H := 2, W := 2,
    pixels := fun f y x =>
      if f = 0 ∧ y = 0 ∧ x = 0 then 1
      else if f = 0 ∧ y = 0 ∧ x = 1 then 2
      else if f = 0 ∧ y = 1 ∧ x = 1 then 3 else 0,
    bboxes := [((0, 1), ⟨0, 0, 1, 1⟩), ((0, 2), ⟨0, 1, 1, 2⟩), ((0, 3), ⟨1, 1, 2, 2⟩)],
    trackD := computeTrackD
      [((0, 1), ⟨0, 0, 1, 1⟩), ((0, 2), ⟨0, 1, 1, 2⟩), ((0, 3), ⟨1, 1, 2, 2⟩)],
    splits := [], termAnns := [] }

/-- `stMaxThree` after `delete_mask(0, 3, txn=7)`: label 3 is historical. -/
def stMaxGone : TrackState := resState (deleteMask 0 3 7 false true stMaxThree)

/-- Track 5 spanning frames 0..2. -/
def stTrackFive : TrackState :=
  { H := 2, W := 2,
    pixels := fun f y x => if f < 3 ∧ y = 0 ∧ x = 0 then 5 else 0,
    bboxes := [((0, 5), boxA), ((1, 5), boxA), ((2, 5), boxA)],
    trackD := computeTrackD [((0, 5), boxA), ((1, 5), boxA), ((2, 5), boxA)],
    splits := [], termAnns := [] }

/-- `add_split(1, 5, [], txn=7)` on `stTrackFive`. -/
def emptySplitRun : Res := addSplit 1 5 [] 7 stTrackFive

/-- The spec's split scenario: label 5 contiguous on frames 0..4, label 6 a
disjoint track on frames 3..7. -/
def stScenario : TrackState :=
  { H := 2, W := 2,
    pixels := fun f y x =>
      if f < 5 ∧ y = 0 ∧ x = 0 then 5
      else if 3 ≤ f ∧ f < 8 ∧ y = 1 ∧ x = 1 then 6 else 0,
    bboxes := [((0, 5), boxA), ((1, 5), boxA), ((2, 5), boxA), ((3, 5), boxA), ((4, 5), boxA),
               ((3, 6), boxB), ((4, 6), boxB), ((5, 6), boxB), ((6, 6), boxB), ((7, 6), boxB)],
    trackD := computeTrackD
      [((0, 5), boxA), ((1, 5), boxA), ((2, 5), boxA), ((3, 5), boxA), ((4, 5), boxA),
       ((3, 6), boxB), ((4, 6), boxB), ((5, 6), boxB), ((6, 6), boxB), ((7, 6), boxB)],
    splits := [], termAnns := [] }

/-- `add_split(daughter_start_frame=3, parent=5, daughters=[5, 6], txn=7)`. -/
def scenarioRun : Res := addSplit 3 5 [5, 6] 7 stScenario

/-- The pixel volume the spec's scenario expects afterwards: label 5 on
frames 0..2, the continuation 7 on frames 3..4, label 6 untouched. -/
def scenarioExpected : Pixels := fun f y x =>
  if f < 3 ∧ y = 0 ∧ x = 0 then 5
  else if 3 ≤ f ∧ f < 5 ∧ y = 0 ∧ x = 0 then 7
  else if 3 ≤ f ∧ f < 8 ∧ y = 1 ∧ x = 1 then 6 else 0

/-- A single-pixel boolean mask of dtype bool. -/
def maskOne : NpMask := ⟨true, [[true]]⟩

/-- A 2x1 boolean mask, taller than `stShort`'s frames. -/
def maskTall : NpMask := ⟨true, [[true], [true]]⟩

/-- Label 5 already present at (0, 5). -/
def stHasFive : TrackState :=
  { H := 2, W := 2,
    pixels := fun f y x => if f = 0 ∧ y = 0 ∧ x = 0 then 5 else 0,
    bboxes := [((0, 5), boxA)],
    trackD := computeTrackD [((0, 5), boxA)],
    splits := [], termAnns := [] }

/-- Frames of height 1 (so `maskTall` cannot be placed). -/
def stShort : TrackState :=
  { H := 1, W := 2, pixels := fun _ _ _ => 0,
    bboxes := [], trackD := [], splits := [], termAnns := [] }

/-- Label 9 occupying the pixel that `maskOne` at the origin covers. -/
def stNine : TrackState :=
  { H := 2, W := 2,
    pixels := fun f y x => if f = 0 ∧ y = 0 ∧ x = 0 then 9 else 0,
    bboxes := [((0, 9), boxA)],
    trackD := computeTrackD [((0, 9), boxA)],
    splits := [], termAnns := [] }

/-- `add_mask(0, 5, (0,0), maskOne)` on `stNine` overwrites label 9's pixel. -/
def overwriteAdd : Res := addMask 0 5 0 0 maskOne 7 stNine

/-- ... and the subsequent `delete_mask(0, 5)` zeroes it instead of
restoring 9. -/
def overwriteDel : Res := deleteMask 0 5 7 false true (resState overwriteAdd)

/-- An empty 2x2 volume. -/
def stEmpty : TrackState :=
  { H := 2, W := 2, pixels := fun _ _ _ => 0,
    bboxes := [], trackD := [], splits := [], termAnns := [] }

/-- Parent 1 at frame 0 with the degenerate split 1 -> [2]; label 2 has its
single entry at frame 1. -/
def stLoneDaughter : TrackState :=
  { H := 2, W := 2,
    pixels := fun f y x =>
      if f = 0 ∧ y = 0 ∧ x = 0 then 1 else if f = 1 ∧ y = 1 ∧ x = 1 then 2 else 0,
    bboxes := [((0, 1), boxA), ((1, 2), boxB)],
    trackD := computeTrackD [((0, 1), boxA), ((1, 2), boxB)],
    splits := [(1, [2])], termAnns := [] }

/-- Claim C1 (code bug): a completed `delete_mask` whose cascade collapses a
single-daughter split leaves the maintained extent table stale.  On
`stCascade`, deleting label 3's only entry renames label 2's entries to
label 1, after which the index holds label 1 at frames 0 and 1, yet the
stored extent table still reads `[(1, (0, 0)), (2, (1, 1))]` — it differs
from the extents recomputed from the index, `[(1, (0, 1))]`, because
`cleanup_single_daughter_splits` relabels with `skip_update=True` and never
refreshes `_track_df`. -/
theorem c1_extent_table_stale :
    resIsOk cascadeRun = true ∧
    (resState cascadeRun).trackD = [(1, 0, 0), (2, 1, 1)] ∧
    computeTrackD (resState cascadeRun).bboxes = [(1, 0, 1)] ∧
    (resState cascadeRun).trackD ≠ computeTrackD (resState cascadeRun).bboxes := by
  decide

/-- Claim C2 (code bug): when both swapped labels own a split,
`swap_tracks` deletes and reinserts parent keys while iterating
`self.splits.items()` on the live dict; CPython raises
`RuntimeError("dictionary changed size during iteration")` after the first
parent is processed, so the operation never completes (and the splits dict
is left mangled: label 2's daughters were overwritten).  Applying the
operation twice therefore cannot return the state to its original
values. -/
theorem c2_swap_raises_runtime_error :
    errKind (swapTracks 1 2 9 stBothParents) = some .runtimeError ∧
    (resState (swapTracks 1 2 9 stBothParents)).splits = [(2, [3, 4])] := by
  decide

/-- Claim C3, counterexample: `add_mask` has no conflict check.  With
`(0, 5)` already indexed, `add_mask(0, 5, (1,1), maskOne)` completes
without any error and appends a second `(0, 5)` row to the index instead
of failing with Conflict. -/
theorem c3_no_conflict_check :
    resIsOk (addMask 0 5 1 1 maskOne 7 stHasFive) = true ∧
    (resState (addMask 0 5 1 1 maskOne 7 stHasFive)).bboxes
      = [((0, 5), boxA), ((0, 5), boxB)] := by
  decide

/-- Claim C4, counterexample: minted labels are current-max + 1, not
historical-max + 1.  After deleting label 3 (the maximum ever observed)
from `stMaxThree`, `break_track` mints 3 again — a previously existing
label id is handed out anew. -/
theorem c4_label_reused :
    brVal (breakTrack 1 2 true 7 stMaxGone) = 3 ∧
    ((0, 3), (⟨1, 1, 2, 2⟩ : BBox)) ∈ stMaxThree.bboxes := by
  decide

/-- Claim C5, counterexample: `add_split` performs no validation.  With an
empty daughters list it completes without any error (no ValidationError),
truncates the parent's track at the daughter start frame (the index
changes), and records an empty daughters list under the parent. -/
theorem c5_empty_daughters_accepted :
    resIsOk emptySplitRun = true ∧
    (resState emptySplitRun).bboxes ≠ stTrackFive.bboxes ∧
    (resState emptySplitRun).bboxes = [((0, 5), boxA), ((1, 6), boxA), ((2, 6), boxA)] ∧
    (resState emptySplitRun).splits = [(5, [])] := by
  decide

/-- Claim C6, counterexample: during the `delete_mask(1, 3, txn=7)` call on
`stCascade`, the cascade's single-daughter collapse issues a pixel write
under transaction `None` rather than the caller-supplied handle. -/
theorem c6_collapse_write_no_txn :
    resIsOk cascadeRun = true ∧
    ∃ e ∈ resEvs cascadeRun, e.isRead = false ∧ Ev.txnOf e = none := by
  decide

/-- Claim C7, counterexample: `add_mask` overwrites whatever lay under the
mask and `delete_mask` zeroes it, so add-then-delete does not restore the
pixels when the mask covers another label's pixel: label 9's pixel at
(0, 0, 0) ends as 0, not 9 (the index, by contrast, is restored here). -/
theorem c7_add_delete_not_restored :
    resIsOk overwriteAdd = true ∧ resIsOk overwriteDel = true ∧
    stNine.pixels 0 0 0 = 9 ∧
    (resState overwriteDel).pixels 0 0 0 = 0 ∧
    (resState overwriteDel).bboxes = stNine.bboxes := by
  decide

/-- Claim C8, counterexample: when the parent is listed among the
daughters, `add_split` removes it and appends the minted continuation at
the END of the list (`list.remove` then `list.append`), so the spec's
scenario registers `splits == {5: [6, 7]}`, not `{5: [7, 6]}`. -/
theorem c8_continuation_appended_not_in_place :
    (resState scenarioRun).splits = [(5, [6, 7])] ∧
    ([(5, [6, 7])] : List (Nat × List Nat)) ≠ [(5, [7, 6])] := by
  decide

/-- Claim C8, amended scenario: on the spec's concrete state,
`add_split(3, 5, [5, 6])` mints the fresh label 7 which holds frames 3..4
of the original label 5's pixels, restricts label 5 to frames 0..2, leaves
label 6 untouched, and registers `splits == {5: [6, 7]}` — the parent
continuation is appended at the end of the daughters list, not substituted
at the parent's position. -/
theorem c8_scenario :
    resIsOk scenarioRun = true ∧
    (resState scenarioRun).bboxes
      = [((0, 5), boxA), ((1, 5), boxA), ((2, 5), boxA), ((3, 7), boxA), ((4, 7), boxA),
         ((3, 6), boxB), ((4, 6), boxB), ((5, 6), boxB), ((6, 6), boxB), ((7, 6), boxB)] ∧
    (resState scenarioRun).splits = [(5, [6, 7])] ∧
    (∀ f < 8, ∀ y < 2, ∀ x < 2,
      (resState scenarioRun).pixels f y x = scenarioExpected f y x) := by
  decide

/-- Claim C10: when `delete_mask` removes the last entry of a label and the
cascade removes that label from a daughters list that contained only it,
the parent's split record survives with an empty daughters list — the
cleanup collapses only splits with exactly one daughter.  On
`stLoneDaughter`, deleting label 2's only entry leaves
`splits == {1: []}` after the completed operation. -/
theorem c10_empty_daughters_list_persists :
    resIsOk (deleteMask 1 2 5 false true stLoneDaughter) = true ∧
    (resState (deleteMask 1 2 5 false true stLoneDaughter)).splits = [(1, [])] := by
  decide

/-
General lemmas about the embedding, followed by the remaining claim
theorems and their witnesses.
-/

theorem le_foldl_max (l : List Nat) (i : Nat) : i ≤ l.foldl Nat.max i := by
  induction l generalizing i with
  | nil => simp
  | cons a r ih =>
    simp only [List.foldl_cons]
    exact le_trans (Nat.le_max_left i a) (ih (Nat.max i a))

theorem mem_le_foldl_max (l : List Nat) (i x : Nat) (hx : x ∈ l) : x ≤ l.foldl Nat.max i := by
  induction l generalizing i with
  | nil => cases hx
  | cons a r ih =>
    simp only [List.foldl_cons]
    rcases List.mem_cons.mp hx with h | h
    · subst h
      exact le_trans (Nat.le_max_right i x) (le_foldl_max r _)
    · exact ih _ h

/-- Claim C4, amended: the label minted by `break_track` (hence also by
`add_split`) is the maximum label CURRENTLY present in the bounding-box
index plus one — in particular it is larger than every label currently in
the index, but nothing prevents it from coinciding with a label that was
present earlier and has been deleted (see the counterexample
`c4_label_reused`). -/
theorem c4_mint_is_current_max_plus_one (st : TrackState) (ns t : Nat) (ca : Bool)
    (τ n : Nat) (st' : TrackState) (evs : List Ev)
    (h : breakTrack ns t ca τ st = .ok (n, st', evs)) :
    n = getSafeTrackId st.bboxes ∧ ∀ e ∈ st.bboxes, e.1.2 < n := by
  have hn : n = getSafeTrackId st.bboxes := by
    simp only [breakTrack] at h
    split at h
    · exact absurd h (by simp)
    · simp only [Except.ok.injEq, Prod.mk.injEq] at h
      exact h.1.symm
  refine ⟨hn, fun e he => ?_⟩
  have h1 : e.1.2 ≤ (st.bboxes.map (fun e => e.1.2)).foldl Nat.max 0 :=
    mem_le_foldl_max _ _ _ (List.mem_map_of_mem _ he)
  simp only [hn, getSafeTrackId]
  omega

/-- Closed instance of `c4_mint_is_current_max_plus_one` at a concrete
call: breaking track 2 of `stMaxGone` mints 3 = current max + 1. -/
theorem c4_mint_witness :
    3 = getSafeTrackId stMaxGone.bboxes ∧ ∀ e ∈ stMaxGone.bboxes, e.1.2 < 3 :=
  c4_mint_is_current_max_plus_one stMaxGone 1 2 true 7 3
    (brState (breakTrack 1 2 true 7 stMaxGone))
    (brEvs (breakTrack 1 2 true 7 stMaxGone)) rfl

/-- Claim C3, amended: `add_mask` fails by assertion (the spec's
BoundsError/TypeError) whenever the mask placement exceeds the frame's
spatial extent or the mask dtype is not boolean, and in each failure no
pixel is written and the index is unchanged (the raise happens before any
mutation, so the delivered state is the input state itself); no Conflict
check for an existing `(frame, label)` entry is performed (see
`c3_no_conflict_check`). -/
theorem c3_assert_failures_leave_state_unchanged (st : TrackState) (f t oy ox : Nat)
    (m : NpMask) (τ : Nat)
    (h : st.H < shape0 m.data + oy ∨ st.W < shape1 m.data + ox ∨ m.dtypeBool = false) :
    addMask f t oy ox m τ st = .error (.assertionError, st) := by
  unfold addMask
  by_cases h1 : shape0 m.data + oy ≤ st.H
  · rw [if_pos h1]
    by_cases h2 : shape1 m.data + ox ≤ st.W
    · rw [if_pos h2]
      have h3 : m.dtypeBool = false := by
        rcases h with h | h | h
        · omega
        · omega
        · exact h
      rw [if_neg (by simp [h3])]
    · rw [if_neg h2]
  · rw [if_neg h1]

/-- Closed instance of `c3_assert_failures_leave_state_unchanged`: a 2-row
mask cannot be placed in a height-1 volume and the call leaves the state
untouched. -/
theorem c3_assert_witness :
    (stShort.H < shape0 maskTall.data + 0 ∨ stShort.W < shape1 maskTall.data + 0 ∨
      maskTall.dtypeBool = false) ∧
    addMask 0 5 0 0 maskTall 7 stShort = .error (.assertionError, stShort) :=
  ⟨by decide, c3_assert_failures_leave_state_unchanged stShort 0 5 0 0 maskTall 7 (by decide)⟩

/-- Claim C9 (confirmed): in every execution of `swap_tracks`, the pixel IO
log is a block of reads (both identities, all affected frames) followed by
a block of writes — no write to the volume store precedes any of those
reads. -/
theorem c9_reads_before_writes (st : TrackState) (t1 t2 τ : Nat) :
    ∃ rs ws, resEvs (swapTracks t1 t2 τ st) = rs ++ ws ∧
      (∀ e ∈ rs, e.isRead = true) ∧ (∀ e ∈ ws, e.isRead = false) := by
  simp only [swapTracks]
  split
  · exact ⟨[], [], rfl, by simp, by simp⟩
  · refine ⟨_, _, rfl, ?_, ?_⟩
    · intro e he
      rcases List.mem_append.mp he with h | h <;>
        · obtain ⟨a, -, rfl⟩ := List.mem_map.mp h
          rfl
    · intro e he
      rcases List.mem_append.mp he with h | h <;>
        · obtain ⟨a, -, rfl⟩ := List.mem_map.mp h
          rfl

theorem updateTrackid_ok_evs (f t new : Nat) (τ' : Option Nat) (sk : Bool)
    (st st1 : TrackState) (e1 : List Ev)
    (h : updateTrackid f t new τ' sk st = .ok (st1, e1)) :
    ∃ row, e1 = [Ev.read τ' f row, Ev.write τ' f row new] := by
  unfold updateTrackid at h
  cases hl : lookupBB st.bboxes (f, t) with
  | none => rw [hl] at h; exact absurd h (by simp)
  | some row =>
    rw [hl] at h
    simp only [Except.ok.injEq, Prod.mk.injEq] at h
    exact ⟨row, h.2.symm⟩

theorem foldUpdate_none_txn (frames : List Nat) (t new : Nat) (st st' : TrackState)
    (evs : List Ev) (h : foldUpdate frames t new none st = .ok (st', evs)) :
    ∀ e ∈ evs, e.txnOf = none := by
  induction frames generalizing st st' evs with
  | nil =>
    simp only [foldUpdate, Except.ok.injEq, Prod.mk.injEq] at h
    rw [← h.2]
    simp
  | cons f fs ih =>
    simp only [foldUpdate] at h
    split at h
    · exact absurd h (by simp)
    · rename_i st1 e1 hu
      split at h
      · exact absurd h (by simp)
      · rename_i st2 e2 hf
        simp only [Except.ok.injEq, Prod.mk.injEq] at h
        intro e he
        rw [← h.2] at he
        rcases List.mem_append.mp he with h1 | h2
        · obtain ⟨row, hrow⟩ := updateTrackid_ok_evs f t new none true st st1 e1 hu
          rw [hrow] at h1
          simp only [List.mem_cons, List.not_mem_nil, or_false] at h1
          rcases h1 with h1 | h1
          · rw [h1]; rfl
          · rw [h1]; rfl
        · exact ih st1 st2 e2 hf e h2

theorem cleanupGo_none_txn (l : List (Nat × List Nat)) (st st' : TrackState)
    (evs : List Ev) (h : cleanupGo l st = .ok (st', evs)) :
    ∀ e ∈ evs, e.txnOf = none := by
  induction l generalizing st st' evs with
  | nil =>
    simp only [cleanupGo, Except.ok.injEq, Prod.mk.injEq] at h
    rw [← h.2]
    simp
  | cons pd rest ih =>
    obtain ⟨p, ds⟩ := pd
    simp only [cleanupGo] at h
    split at h
    · split at h
      · exact absurd h (by simp)
      · rename_i st1 e1 hfu
        split at h
        · exact absurd h (by simp)
        · rename_i st2 e2 hgo
          simp only [Except.ok.injEq, Prod.mk.injEq] at h
          intro e he
          rw [← h.2] at he
          rcases List.mem_append.mp he with h1 | h2
          · exact foldUpdate_none_txn _ _ _ _ _ _ hfu e h1
          · exact ih _ _ _ hgo e h2
    · exact ih st st' evs h

/-- Claim C6, amended: within one `delete_mask(frame, label, txn)` call the
zeroing write of the deletion itself is issued under the caller-supplied
transaction `txn`, but every pixel read/write performed by the cascade's
single-daughter collapse is issued under transaction `None`
(`cleanup_single_daughter_splits` passes `None` to `_update_trackid`), not
under `txn`. -/
theorem c6_delete_write_txn_collapse_writes_none (st : TrackState) (f t τ : Nat)
    (st' : TrackState) (evs : List Ev)
    (h : deleteMask f t τ false true st = .ok (st', evs)) :
    ∃ row cevs, evs = Ev.read (some τ) f row :: Ev.write (some τ) f row 0 :: cevs ∧
      ∀ e ∈ cevs, e.txnOf = none := by
  simp only [deleteMask, Bool.false_eq_true, if_false, eq_self_iff_true, true_and] at h
  split at h
  · exact absurd h (by simp)
  · rename_i row hl
    split at h
    · split at h
      · exact absurd h (by simp)
      · rename_i st4 e2 hc
        simp only [Except.ok.injEq, Prod.mk.injEq] at h
        refine ⟨row, e2, by rw [← h.2]; rfl, ?_⟩
        unfold cleanupSDS at hc
        exact fun e he => cleanupGo_none_txn _ _ _ _ hc e he
    · simp only [Except.ok.injEq, Prod.mk.injEq] at h
      exact ⟨row, [], by rw [← h.2], by simp⟩

/-- Closed instance of `c6_delete_write_txn_collapse_writes_none` at the
`stCascade` deletion, whose cascade does collapse a split. -/
theorem c6_txn_witness :
    ∃ row cevs, resEvs cascadeRun = Ev.read (some 7) 1 row :: Ev.write (some 7) 1 row 0 :: cevs ∧
      ∀ e ∈ cevs, e.txnOf = none :=
  c6_delete_write_txn_collapse_writes_none stCascade 1 3 7
    (resState cascadeRun) (resEvs cascadeRun) rfl

theorem lookupD_cons_self {α : Type} (l : List (Nat × α)) (k : Nat) (v : α) :
    lookupD ((k, v) :: l) k = some v := by
  simp [lookupD, List.find?]

theorem lookupD_cons_ne {α : Type} (e : Nat × α) (r : List (Nat × α)) (k : Nat)
    (h : e.1 ≠ k) : lookupD (e :: r) k = lookupD r k := by
  have hb : (e.1 == k) = false := by simp [h]
  simp [lookupD, List.find?, hb]

theorem lookupD_dictAssign {α : Type} (l : List (Nat × α)) (k : Nat) (v : α) :
    lookupD (dictAssign l k v) k = some v := by
  induction l with
  | nil => simp [dictAssign, lookupD, List.find?]
  | cons e r ih =>
    by_cases he : e.1 = k
    · unfold dictAssign
      rw [if_pos (by simp [List.any_cons, he])]
      simp only [List.map_cons, if_pos he]
      exact lookupD_cons_self _ k v
    · unfold dictAssign
      simp only [List.any_cons, (show (e.1 == k) = false by simp [he]), Bool.false_or]
      split
      · rename_i hany
        simp only [List.map_cons, if_neg he]
        rw [lookupD_cons_ne _ _ _ he]
        have h2 := ih
        unfold dictAssign at h2
        rw [if_pos hany] at h2
        exact h2
      · rename_i hany
        rw [List.cons_append, lookupD_cons_ne _ _ _ he]
        have h2 := ih
        unfold dictAssign at h2
        rw [if_neg hany] at h2
        exact h2

theorem dictAssign_key_val {α : Type} (l : List (Nat × α)) (k : Nat) (v : α) :
    ∀ e ∈ dictAssign l k v, e.1 = k → e.2 = v := by
  unfold dictAssign
  split
  · intro e he hk
    obtain ⟨e0, he0, heq⟩ := List.mem_map.mp he
    by_cases h0 : e0.1 = k
    · rw [if_pos h0] at heq
      rw [← heq]
    · rw [if_neg h0] at heq
      rw [← heq] at hk
      exact absurd hk h0
  · rename_i hany
    intro e he hk
    rcases List.mem_append.mp he with h1 | h1
    · exfalso
      rw [Bool.not_eq_true, List.any_eq_false] at hany
      exact hany e h1 (by simp [hk])
    · simp only [List.mem_singleton] at h1
      rw [h1]

theorem lookupD_dictPop_ne {α : Type} (l : List (Nat × α)) (q p : Nat) (h : q ≠ p) :
    lookupD (dictPop l q) p = lookupD l p := by
  induction l with
  | nil => rfl
  | cons e r ih =>
    by_cases he : e.1 = q
    · have hb : (e.1 != q) = false := by simp [he]
      simp only [dictPop, List.filter_cons, hb, if_false]
      rw [lookupD_cons_ne e r p (by rw [he]; exact h)]
      exact ih
    · have hb : (e.1 != q) = true := by simp [he]
      simp only [dictPop, List.filter_cons, hb, if_true]
      by_cases hp : e.1 = p
      · obtain ⟨e1, e2⟩ := e
        simp only at hp
        rw [hp, lookupD_cons_self, lookupD_cons_self]
      · rw [lookupD_cons_ne e _ p hp, lookupD_cons_ne e r p hp]
        exact ih

theorem updateTrackid_keeps_splits (f t new : Nat) (τ' : Option Nat) (sk : Bool)
    (st st1 : TrackState) (e1 : List Ev)
    (h : updateTrackid f t new τ' sk st = .ok (st1, e1)) : st1.splits = st.splits := by
  unfold updateTrackid at h
  split at h
  · exact absurd h (by simp)
  · simp only [Except.ok.injEq, Prod.mk.injEq] at h
    rw [← h.1]
    cases sk <;> simp [updateTrackDf]

theorem foldUpdate_keeps_splits (frames : List Nat) (t new : Nat) (τ' : Option Nat)
    (st st' : TrackState) (evs : List Ev)
    (h : foldUpdate frames t new τ' st = .ok (st', evs)) : st'.splits = st.splits := by
  induction frames generalizing st st' evs with
  | nil =>
    simp only [foldUpdate, Except.ok.injEq, Prod.mk.injEq] at h
    rw [← h.1]
  | cons f fs ih =>
    simp only [foldUpdate] at h
    split at h
    · exact absurd h (by simp)
    · rename_i st1 e1 hu
      split at h
      · exact absurd h (by simp)
      · rename_i st2 e2 hf
        simp only [Except.ok.injEq, Prod.mk.injEq] at h
        rw [← h.1, ih st1 st2 e2 hf, updateTrackid_keeps_splits f t new τ' true st st1 e1 hu]

theorem cleanupGo_keeps_empty (p : Nat) (l : List (Nat × List Nat))
    (st st' : TrackState) (evs : List Ev)
    (hl : ∀ e ∈ l, e.1 = p → e.2 = ([] : List Nat))
    (hst : lookupD st.splits p = some [])
    (h : cleanupGo l st = .ok (st', evs)) : lookupD st'.splits p = some [] := by
  revert hl hst h
  induction l generalizing st st' evs with
  | nil =>
    intro hl hst h
    simp only [cleanupGo, Except.ok.injEq, Prod.mk.injEq] at h
    rw [← h.1]
    exact hst
  | cons e rest ih =>
    obtain ⟨q, ds⟩ := e
    intro hl hst h
    simp only [cleanupGo] at h
    split at h
    · rename_i hlen
      have hqp : q ≠ p := by
        intro hq
        have hds : ds = [] := hl (q, ds) (List.mem_cons_self _ _) hq
        rw [hds] at hlen
        simp at hlen
      split at h
      · exact absurd h (by simp)
      · rename_i st1 e1 hfu
        split at h
        · exact absurd h (by simp)
        · rename_i st2 e2 hgo
          simp only [Except.ok.injEq, Prod.mk.injEq] at h
          rw [← h.1]
          refine ih _ _ _ (fun e he hep => hl e (List.mem_cons_of_mem _ he) hep) ?_ hgo
          show lookupD (dictPop st1.splits q) p = some []
          rw [lookupD_dictPop_ne _ _ _ hqp,
            foldUpdate_keeps_splits _ _ _ _ _ _ _ hfu]
          exact hst
    · exact ih _ _ _ (fun e he hep => hl e (List.mem_cons_of_mem _ he) hep) hst h

/-- Claim C5, amended: `add_split` performs no validation at all — there is
no ValidationError and no emptiness/duplicate check.  In particular a call
with an empty daughters list completes normally: it truncates the parent at
the daughter start frame via `break_track` and registers an EMPTY daughters
list under the parent (see `c5_empty_daughters_accepted` for a concrete run
whose state visibly changed). -/
theorem c5_add_split_no_validation (st : TrackState) (dsf p τ : Nat)
    (st' : TrackState) (evs : List Ev)
    (h : addSplit dsf p [] τ st = .ok (st', evs)) :
    lookupD st'.splits p = some [] := by
  simp only [addSplit] at h
  split at h
  · exact absurd h (by simp)
  · rename_i newId st1 e1 hbt
    rw [if_neg (List.not_mem_nil p)] at h
    split at h
    · rename_i e2 hgd
      simp only [goDaughters] at hgd
      exact absurd hgd (by simp)
    · rename_i st2 e2 hgd
      simp only [goDaughters, Except.ok.injEq, Prod.mk.injEq] at hgd
      split at h
      · exact absurd h (by simp)
      · rename_i st4 e3 hc
        simp only [Except.ok.injEq, Prod.mk.injEq] at h
        rw [← h.1]
        unfold cleanupSDS at hc
        exact cleanupGo_keeps_empty p _ _ _ _
          (dictAssign_key_val st2.splits p [])
          (lookupD_dictAssign st2.splits p [])
          hc

/-- Closed instance of `c5_add_split_no_validation` at the concrete
`add_split(1, 5, [], txn=7)` run. -/
theorem c5_empty_witness : lookupD (resState emptySplitRun).splits 5 = some [] :=
  c5_add_split_no_validation stTrackFive 1 5 7
    (resState emptySplitRun) (resEvs emptySplitRun) rfl

theorem rowAt_true_lt (row : List Bool) (j : Nat) (h : rowAt row j = true) :
    j < row.length := by
  induction row generalizing j with
  | nil => cases h
  | cons b r ih =>
    cases j with
    | zero => simp
    | succ j => exact Nat.succ_lt_succ (ih j h)

theorem maskAt_true_row_lt (m : List (List Bool)) (i j : Nat) (h : maskAt m i j = true) :
    i < m.length := by
  induction m generalizing i with
  | nil => cases h
  | cons row rest ih =>
    cases i with
    | zero => simp
    | succ i => exact Nat.succ_lt_succ (ih i h)

theorem maskAt_true_col_lt (m : List (List Bool)) (w i j : Nat)
    (hw : ∀ row ∈ m, row.length = w) (h : maskAt m i j = true) : j < w := by
  induction m generalizing i with
  | nil => cases h
  | cons row rest ih =>
    cases i with
    | zero =>
      rw [← hw row (List.mem_cons_self _ _)]
      exact rowAt_true_lt row j h
    | succ i => exact ih i (fun r hr => hw r (List.mem_cons_of_mem _ hr)) h

theorem truesIn_mem (row : List Bool) (j : Nat) : j ∈ truesIn row ↔ rowAt row j = true := by
  induction row generalizing j with
  | nil => simp [truesIn, rowAt]
  | cons b r ih =>
    simp only [truesIn, List.mem_append]
    cases j with
    | zero =>
      constructor
      · rintro (h | h)
        · cases b with
          | false => simp at h
          | true => rfl
        · simp at h
      · intro h
        left
        rw [show b = true from h]
        simp
    | succ j =>
      constructor
      · rintro (h | h)
        · cases b <;> simp at h
        · obtain ⟨a, ha, haeq⟩ := List.mem_map.mp h
          have haj : a = j := by omega
          exact (ih j).mp (haj ▸ ha)
      · intro h
        right
        exact List.mem_map.mpr ⟨j, (ih j).mpr h, rfl⟩

theorem setPositions_mem (m : List (List Bool)) (i j : Nat) :
    (i, j) ∈ setPositions m ↔ maskAt m i j = true := by
  induction m generalizing i with
  | nil => simp [setPositions, maskAt]
  | cons row rest ih =>
    simp only [setPositions, List.mem_append, List.mem_map]
    cases i with
    | zero =>
      constructor
      · rintro (⟨a, ha, haeq⟩ | ⟨p, hp, hpeq⟩)
        · simp only [Prod.mk.injEq] at haeq
          exact (truesIn_mem row j).mp (haeq.2 ▸ ha)
        · simp only [Prod.mk.injEq] at hpeq
          omega
      · intro h
        left
        exact ⟨j, (truesIn_mem row j).mpr h, rfl⟩
    | succ i =>
      constructor
      · rintro (⟨a, ha, haeq⟩ | ⟨p, hp, hpeq⟩)
        · simp only [Prod.mk.injEq] at haeq
          omega
        · simp only [Prod.mk.injEq] at hpeq
          have hp1 : p = (i, j) := by
            obtain ⟨p1, p2⟩ := p
            simp only [Prod.mk.injEq] at hpeq ⊢
            omega
          exact (ih i).mp (hp1 ▸ hp)
      · intro h
        right
        exact ⟨(i, j), (ih i).mpr h, rfl⟩

theorem foldl_min_le_init (l : List Nat) (i : Nat) : l.foldl Nat.min i ≤ i := by
  induction l generalizing i with
  | nil => simp
  | cons a r ih =>
    simp only [List.foldl_cons]
    exact le_trans (ih (Nat.min i a)) (Nat.min_le_left i a)

theorem foldl_min_le_mem (l : List Nat) (i x : Nat) (hx : x ∈ l) : l.foldl Nat.min i ≤ x := by
  induction l generalizing i with
  | nil => cases hx
  | cons a r ih =>
    simp only [List.foldl_cons]
    rcases List.mem_cons.mp hx with h | h
    · subst h
      exact le_trans (foldl_min_le_init r _) (Nat.min_le_right i x)
    · exact ih _ h

theorem natMinList_le (l : List Nat) (x : Nat) (hx : x ∈ l) : natMinList l ≤ x := by
  cases l with
  | nil => cases hx
  | cons a r =>
    rcases List.mem_cons.mp hx with h | h
    · subst h
      exact foldl_min_le_init r x
    · exact foldl_min_le_mem r a x h

theorem le_natMaxList (l : List Nat) (x : Nat) (hx : x ∈ l) : x ≤ natMaxList l := by
  cases l with
  | nil => cases hx
  | cons a r =>
    rcases List.mem_cons.mp hx with h | h
    · subst h
      exact le_foldl_max r x
    · exact mem_le_foldl_max r a x h

theorem natMaxList_lt (l : List Nat) (B : Nat) (hne : l ≠ []) (h : ∀ x ∈ l, x < B) :
    natMaxList l < B := by
  cases l with
  | nil => exact absurd rfl hne
  | cons a r =>
    have aux : ∀ (s : List Nat) (i : Nat), i < B → (∀ x ∈ s, x < B) → s.foldl Nat.max i < B := by
      intro s
      induction s with
      | nil => intro i hi _; exact hi
      | cons b s2 ih =>
        intro i hi hall
        simp only [List.foldl_cons]
        refine ih (Nat.max i b) (Nat.max_lt.mpr ⟨hi, hall b (List.mem_cons_self _ _)⟩) ?_
        exact fun x hx => hall x (List.mem_cons_of_mem _ hx)
    exact aux r a (h a (List.mem_cons_self _ _)) (fun x hx => h x (List.mem_cons_of_mem _ hx))

theorem find?_append_of_none {α : Type} (p : α → Bool) (l1 l2 : List α)
    (h : ∀ e ∈ l1, p e = false) : (l1 ++ l2).find? p = l2.find? p := by
  induction l1 with
  | nil => rfl
  | cons a r ih =>
    rw [List.cons_append]
    have hb := h a (List.mem_cons_self _ _)
    rw [List.find?_cons_of_neg _ (by simp [hb])]
    exact ih (fun e he => h e (List.mem_cons_of_mem _ he))

theorem lookupBB_append_fresh (bb : List ((Nat × Nat) × BBox)) (k : Nat × Nat) (v : BBox)
    (h : ∀ e ∈ bb, e.1 ≠ k) : lookupBB (bb ++ [(k, v)]) k = some v := by
  unfold lookupBB
  rw [find?_append_of_none _ bb _ (fun e he => by simp [h e he])]
  simp [List.find?]

theorem filter_key_append (bb : List ((Nat × Nat) × BBox)) (k : Nat × Nat) (v : BBox)
    (h : ∀ e ∈ bb, e.1 ≠ k) :
    (bb ++ [(k, v)]).filter (fun e => e.1 != k) = bb := by
  rw [List.filter_append]
  have h2 : List.filter (fun e => e.1 != k) [(k, v)] = [] := by simp
  rw [h2, List.append_nil]
  exact List.filter_eq_self.mpr (fun e he => by simp [h e he])

theorem cleanupGo_noop (l : List (Nat × List Nat)) (st : TrackState)
    (h : ∀ pd ∈ l, pd.2.length ≠ 1) : cleanupGo l st = .ok (st, []) := by
  revert h
  induction l with
  | nil => intro h; rfl
  | cons pd rest ih =>
    intro h
    obtain ⟨p, ds⟩ := pd
    simp only [cleanupGo]
    rw [if_neg (h (p, ds) (List.mem_cons_self _ _))]
    exact ih (fun e he => h e (List.mem_cons_of_mem _ he))

theorem cleanupSDS_noop (st : TrackState) (h : ∀ pd ∈ st.splits, pd.2.length ≠ 1) :
    cleanupSDS st = .ok (st, []) := by
  unfold cleanupSDS
  exact cleanupGo_noop st.splits st h

theorem cleanupSDS_ok_id (st st' : TrackState) (evs : List Ev)
    (heq : cleanupSDS st = .ok (st', evs))
    (h : ∀ pd ∈ st.splits, pd.2.length ≠ 1) : st' = st ∧ evs = [] := by
  rw [cleanupSDS_noop st h] at heq
  simp only [Except.ok.injEq, Prod.mk.injEq] at heq
  exact ⟨heq.1.symm, heq.2.symm⟩

theorem cleanupSDS_no_error (st : TrackState) (e : PyErr × TrackState)
    (heq : cleanupSDS st = .error e)
    (h : ∀ pd ∈ st.splits, pd.2.length ≠ 1) : False := by
  rw [cleanupSDS_noop st h] at heq
  exact absurd heq (by simp)

theorem addPixels_then_zero (px : Pixels) (f L oy ox : Nat) (m : List (List Bool)) (bbW : BBox)
    (hzero : ∀ y x, inWin bbW y x = true → maskAt m (y - oy) (x - ox) = true → px f y x = 0)
    (hnoL : ∀ y x, inWin bbW y x = true → px f y x ≠ L) :
    writeWhereEq (addPixels px f L oy ox m bbW) f bbW L 0 = px := by
  funext f2 y x
  show (if f2 = f ∧ inWin bbW y x = true ∧ addPixels px f L oy ox m bbW f2 y x = L then 0
        else addPixels px f L oy ox m bbW f2 y x) = px f2 y x
  by_cases hf : f2 = f
  · subst hf
    by_cases hw : inWin bbW y x = true
    · by_cases hm : maskAt m (y - oy) (x - ox) = true
      · have hA : addPixels px f2 L oy ox m bbW f2 y x = L := if_pos ⟨rfl, hw, hm⟩
        rw [if_pos ⟨rfl, hw, hA⟩]
        exact (hzero y x hw hm).symm
      · have hA : addPixels px f2 L oy ox m bbW f2 y x = px f2 y x :=
          if_neg (fun hc => hm hc.2.2)
        rw [hA, if_neg (fun hc => hnoL y x hw hc.2.2)]
    · have hA : addPixels px f2 L oy ox m bbW f2 y x = px f2 y x :=
        if_neg (fun hc => hw hc.2.1)
      rw [hA, if_neg (fun hc => hw hc.2.1)]
  · have hA : addPixels px f L oy ox m bbW f2 y x = px f2 y x :=
      if_neg (fun hc => hf hc.1)
    rw [hA, if_neg (fun hc => hf hc.1)]

theorem deleteMask_no_collapse_spec (st : TrackState) (f t τ : Nat) (row : BBox)
    (hlook : lookupBB st.bboxes (f, t) = some row)
    (hS : ∀ pd ∈ st.splits, (pd.2.filter (fun d => d != t)).length ≠ 1) :
    ∃ st', deleteMask f t τ false true st
        = .ok (st', [Ev.read (some τ) f row, Ev.write (some τ) f row 0]) ∧
      st'.pixels = writeWhereEq st.pixels f row t 0 ∧
      st'.bboxes = st.bboxes.filter (fun e => e.1 != (f, t)) := by
  have hlen : ∀ pd ∈ (dictPop st.splits t).map
      (fun pd => (pd.1, pd.2.filter (fun d => d != t))), pd.2.length ≠ 1 := by
    intro pd hpd
    obtain ⟨pd0, hpd0, rfl⟩ := List.mem_map.mp hpd
    exact hS pd0 (List.mem_of_mem_filter hpd0)
  simp only [deleteMask, hlook, updateTrackDf, Bool.false_eq_true, if_false,
    eq_self_iff_true, true_and]
  split
  · split
    · rename_i e heq
      exact absurd (cleanupSDS_no_error _ _ heq hlen) (by simp)
    · rename_i st4 e2 heq
      obtain ⟨h4, h4e⟩ := cleanupSDS_ok_id _ _ _ heq hlen
      refine ⟨st4, ?_, ?_, ?_⟩
      · rw [h4e, List.append_nil]
      · rw [h4]
      · rw [h4]
  · exact ⟨_, rfl, rfl, rfl⟩

/-- Claim C7, amended: `add_mask(f, L, origin, mask, txn)` followed by
`delete_mask(f, L, txn)` restores the frame's pixels and the bounding-box
index exactly, PROVIDED the mask's set bits cover only zero pixels and no
pixel of the frame already holds `L` — `add_mask` overwrites whatever lay
under the mask and `delete_mask` zeroes it, so without that hypothesis the
overwritten pixels end as 0 instead of their old value (see
`c7_add_delete_not_restored`).  The remaining hypotheses say the call pair
is well-formed: boolean dtype, in-bounds rectangular mask with at least one
set bit, no index entry yet for `(f, L)`, and no daughters list that the
cascade could collapse. -/
theorem c7_add_then_delete_restores (st : TrackState) (f L oy ox : Nat) (m : NpMask) (τ : Nat)
    (hdt : m.dtypeBool = true)
    (hb1 : shape0 m.data + oy ≤ st.H)
    (hb2 : shape1 m.data + ox ≤ st.W)
    (hrect : ∀ row ∈ m.data, row.length = shape1 m.data)
    (hne : setPositions m.data ≠ [])
    (h0 : ∀ p ∈ setPositions m.data, st.pixels f (oy + p.1) (ox + p.2) = 0)
    (hL : ∀ y, y < st.H → ∀ x, x < st.W → st.pixels f y x ≠ L)
    (hK : ∀ e ∈ st.bboxes, e.1 ≠ (f, L))
    (hS : ∀ pd ∈ st.splits, (pd.2.filter (fun d => d != L)).length ≠ 1) :
    resIsOk (addMask f L oy ox m τ st) = true ∧
    resIsOk (deleteMask f L τ false true (resState (addMask f L oy ox m τ st))) = true ∧
    (resState (deleteMask f L τ false true (resState (addMask f L oy ox m τ st)))).pixels
      = st.pixels ∧
    (resState (deleteMask f L τ false true (resState (addMask f L oy ox m τ st)))).bboxes
      = st.bboxes := by
  cases hps : setPositions m.data with
  | nil => exact absurd hps hne
  | cons q qs =>
    have hadd : addMask f L oy ox m τ st
        = .ok (updateTrackDf
            { st with pixels := addPixels st.pixels f L oy ox m.data (tightBox oy ox (q :: qs)),
                      bboxes := st.bboxes ++ [((f, L), tightBox oy ox (q :: qs))] },
          [Ev.write (some τ) f (tightBox oy ox (q :: qs)) L]) := by
      unfold addMask
      rw [if_pos hb1, if_pos hb2, if_pos hdt, hps]
    -- bounds of the tight window
    have hmaxY : natMaxList ((q :: qs).map (fun r => r.1)) < shape0 m.data := by
      refine natMaxList_lt _ _ (by simp) ?_
      intro v hv
      obtain ⟨p, hp, rfl⟩ := List.mem_map.mp hv
      have hm : maskAt m.data p.1 p.2 = true :=
        (setPositions_mem m.data p.1 p.2).mp (by rw [hps]; simpa using hp)
      exact maskAt_true_row_lt _ _ _ hm
    have hmaxX : natMaxList ((q :: qs).map (fun r => r.2)) < shape1 m.data := by
      refine natMaxList_lt _ _ (by simp) ?_
      intro v hv
      obtain ⟨p, hp, rfl⟩ := List.mem_map.mp hv
      have hm : maskAt m.data p.1 p.2 = true :=
        (setPositions_mem m.data p.1 p.2).mp (by rw [hps]; simpa using hp)
      exact maskAt_true_col_lt _ _ _ _ hrect hm
    -- unpack window membership
    have hwin : ∀ y x, inWin (tightBox oy ox (q :: qs)) y x = true →
        oy ≤ y ∧ ox ≤ x ∧ y < st.H ∧ x < st.W := by
      intro y x hw
      simp only [inWin, tightBox, Bool.and_eq_true, decide_eq_true_eq] at hw
      obtain ⟨⟨⟨hy1, hy2⟩, hx1⟩, hx2⟩ := hw
      have hH : y < st.H := by
        have := hmaxY
        simp only [shape0] at this hb1
        omega
      have hW : x < st.W := by
        have := hmaxX
        simp only [shape1] at this hb2
        omega
      exact ⟨by omega, by omega, hH, hW⟩
    have hzero : ∀ y x, inWin (tightBox oy ox (q :: qs)) y x = true →
        maskAt m.data (y - oy) (x - ox) = true → st.pixels f y x = 0 := by
      intro y x hw hm
      obtain ⟨hy, hx, -, -⟩ := hwin y x hw
      have hmem : (y - oy, x - ox) ∈ setPositions m.data :=
        (setPositions_mem m.data (y - oy) (x - ox)).mpr hm
      have := h0 (y - oy, x - ox) hmem
      rwa [Nat.add_sub_cancel' hy, Nat.add_sub_cancel' hx] at this
    have hnoL : ∀ y x, inWin (tightBox oy ox (q :: qs)) y x = true →
        st.pixels f y x ≠ L := by
      intro y x hw
      obtain ⟨-, -, hH, hW⟩ := hwin y x hw
      exact hL y hH x hW
    have hpixlem := addPixels_then_zero st.pixels f L oy ox m.data
      (tightBox oy ox (q :: qs)) hzero hnoL
    have hlook : lookupBB (st.bboxes ++ [((f, L), tightBox oy ox (q :: qs))]) (f, L)
        = some (tightBox oy ox (q :: qs)) :=
      lookupBB_append_fresh _ _ _ hK
    obtain ⟨st2, hdel, hpix2, hbb2⟩ := deleteMask_no_collapse_spec
      (updateTrackDf
        { st with pixels := addPixels st.pixels f L oy ox m.data (tightBox oy ox (q :: qs)),
                  bboxes := st.bboxes ++ [((f, L), tightBox oy ox (q :: qs))] })
      f L τ (tightBox oy ox (q :: qs))
      (by simpa [updateTrackDf] using hlook)
      (by simpa [updateTrackDf] using hS)
    rw [hadd]
    simp only [resState]
    rw [hdel]
    simp only [resState, resIsOk]
    refine ⟨trivial, trivial, ?_, ?_⟩
    · rw [hpix2]
      simpa [updateTrackDf] using hpixlem
    · rw [hbb2]
      simpa [updateTrackDf] using filter_key_append st.bboxes (f, L) (tightBox oy ox (q :: qs)) hK

/-- Closed instance of `c7_add_then_delete_restores`: on the empty 2x2
volume, adding label 5 with a single-bit mask and deleting it restores the
(all-zero) pixels and the (empty) index. -/
theorem c7_restore_witness :
    resIsOk (addMask 0 5 0 0 maskOne 3 stEmpty) = true ∧
    resIsOk (deleteMask 0 5 3 false true (resState (addMask 0 5 0 0 maskOne 3 stEmpty))) = true ∧
    (resState (deleteMask 0 5 3 false true (resState (addMask 0 5 0 0 maskOne 3 stEmpty)))).pixels
      = stEmpty.pixels ∧
    (resState (deleteMask 0 5 3 false true (resState (addMask 0 5 0 0 maskOne 3 stEmpty)))).bboxes
      = stEmpty.bboxes :=
  c7_add_then_delete_restores stEmpty 0 5 0 0 maskOne 3
    (by decide) (by decide) (by decide) (by decide) (by decide) (by decide)
    (by decide) (by decide) (by decide)
